import Mathlib

/-!
Verification of the dbbench job scheduler and statistics pipeline.

The definitions below are shallow embeddings of the Go sources:
Go `float64` arithmetic is modelled exactly, over `ℚ` (and over `ℝ`
where `sqrt`/`log` are involved), Go integers as `ℕ`/`ℤ`, Go maps as
association lists, and Go channels/goroutines as explicit timed event
traces.
-/

namespace DbBench

/-- Welford streaming statistics: the struct `StreamingStats`
(`count`, `mean`, `sumSquareDeviation`). Go `float64` values are
modelled as exact rationals. -/
structure StreamingStats where
  count : ℕ
  mean : ℚ
  sumSquareDeviation : ℚ
deriving DecidableEq

/-- The Go zero value of `StreamingStats`. -/
def StreamingStats.init : StreamingStats := ⟨0, 0, 0⟩

/-- `func (ss *StreamingStats) Add(x float64)`: if `count == 0`, set
`mean = x`; otherwise apply the Welford update; then `count++`. -/
def StreamingStats.Add (ss : StreamingStats) (x : ℚ) : StreamingStats :=
  if ss.count = 0 then
    { ss with mean := x, count := ss.count + 1 }
  else
    let oldMean := ss.mean
    let newMean := ss.mean + (x - ss.mean) / ((ss.count : ℚ) + 1)
    { count := ss.count + 1
      mean := newMean
      sumSquareDeviation := ss.sumSquareDeviation + (x - oldMean) * (x - newMean) }

/-- `func (ss *StreamingStats) Count() int`. -/
def StreamingStats.Count (ss : StreamingStats) : ℕ := ss.count

/-- `func (ss *StreamingStats) Mean() float64`. -/
def StreamingStats.Mean (ss : StreamingStats) : ℚ := ss.mean

/-- `func (ss *StreamingStats) SampleVariance() float64`:
`sumSquareDeviation / (count-1)` when `count > 1`, else `0`. -/
def StreamingStats.SampleVariance (ss : StreamingStats) : ℚ :=
  if 1 < ss.count then ss.sumSquareDeviation / ((ss.count - 1 : ℕ) : ℚ) else 0

/-- The state reached after adding every element of `xs` in order to a
fresh `StreamingStats`. -/
def StreamingStats.fromList (xs : List ℚ) : StreamingStats :=
  List.foldl StreamingStats.Add StreamingStats.init xs

/-- The Welford recurrence exactly as the spec states it:
`n' = n+1; M' = M + (x−M)/n'; S' = S + (x−M)(x−M')`. This is the
spec-side definition to be compared with `StreamingStats.Add`. -/
def welfordStep (s : StreamingStats) (x : ℚ) : StreamingStats :=
  let n' := s.count + 1
  let M' := s.mean + (x - s.mean) / (n' : ℚ)
  { count := n'
    mean := M'
    sumSquareDeviation := s.sumSquareDeviation + (x - s.mean) * (x - M') }

/-- `func NormInverseCDF(p float64) float64`: the Acklam approximation
of the inverse normal CDF, with a central rational branch for
`|q| <= .47575` and a tail branch using `r = sqrt(-2 ln p)`. -/
noncomputable def NormInverseCDF (p : ℝ) : ℝ :=
  let q := p - 0.5
  let a := |q|
  if a ≤ 0.47575 then
    let r := q * q
    (((((-39.69683028665376 * r + 220.9460984245205) * r -
        275.9285104469687) * r + 138.3577518672690) * r -
        30.66479806614716) * r + 2.506628277459239) * q /
      (((((-54.47609879822406 * r + 161.5858368580409) * r -
          155.6989798598866) * r + 66.80131188771972) * r -
          13.28068155288572) * r + 1)
  else
    let p' := if q > 0 then 1 - p else p
    let r := Real.sqrt (-2 * Real.log p')
    let z := (((((-0.007784894002430293 * r - 0.3223964580411365) * r -
        2.400758277161838) * r - 2.549732539343734) * r +
        4.374664141464968) * r + 2.938163982698783) /
      ((((0.007784695709041462 * r + 0.3224671290700398) * r +
          2.445134137142996) * r + 3.754408661907416) * r + 1)
    if q > 0 then -z else z

/-- `func (ss *StreamingStats) SampleStdDev() float64`. -/
noncomputable def StreamingStats.SampleStdDev (ss : StreamingStats) : ℝ :=
  Real.sqrt ((ss.SampleVariance : ℚ) : ℝ)

/-- `func (ss *StreamingStats) Confidence(alpha float64) float64`:
`0` when `count < 30`, else `z_alpha * SampleStdDev() / sqrt(count)`
with `z_alpha = NormInverseCDF(1 - (1-alpha)/2)`. -/
noncomputable def StreamingStats.Confidence (ss : StreamingStats) (alpha : ℝ) : ℝ :=
  if ss.count < 30 then 0
  else NormInverseCDF (1 - (1 - alpha) / 2) * ss.SampleStdDev / Real.sqrt (ss.count : ℝ)

/-- `type errorsPerQuery map[string]uint64` (error.go): per-query error
counts, as an association list. -/
abbrev ErrorsPerQuery := List (String × ℕ)

/-- `func (epq errorsPerQuery) Total() uint64`. -/
def ErrorsPerQuery.Total (epq : ErrorsPerQuery) : ℕ :=
  (epq.map (fun kv => kv.2)).sum

/-- `func (epq errorsPerQuery) Add(query string)`: `epq[query]++`, where
a missing key reads as `0`. -/
def ErrorsPerQuery.Add (epq : ErrorsPerQuery) (query : String) : ErrorsPerQuery :=
  if (epq.lookup query).isSome then
    epq.map (fun kv => if kv.1 = query then (kv.1, kv.2 + 1) else kv)
  else
    epq ++ [(query, 1)]

/-- `type errorCounts struct { errorsPerQuery; Error error }` (error.go).
Go `error` values are modelled as strings. -/
structure errorCounts where
  errorsPerQuery : ErrorsPerQuery
  Error : String
deriving DecidableEq

/-- `ecc.Total()` through the embedded `errorsPerQuery`. -/
def errorCounts.Total (ecc : errorCounts) : ℕ :=
  ErrorsPerQuery.Total ecc.errorsPerQuery

/-- `type ErrorCounts map[string]errorCounts`: error code → counts. -/
abbrev ErrorCounts := List (String × errorCounts)

/-- `type Set map[interface{}]struct{}` (util.go), restricted to the
string elements dbbench stores in it. -/
structure GoSet where
  elems : List String
deriving DecidableEq

/-- `func (s Set) Contains(i interface{}) bool`. -/
def GoSet.Contains (s : GoSet) (x : String) : Bool :=
  s.elems.contains x

/-- The `DatabaseFlavor` interface restricted to what error bookkeeping
consumes: `ErrorCode(err error) (string, error)` extracts a driver error
code or fails with a meta-error. -/
structure DatabaseFlavor where
  ErrorCode : String → Except String String

/-- `func (ec ErrorCounts) TotalErrors() uint64`. -/
def ErrorCounts.TotalErrors (ec : ErrorCounts) : ℕ :=
  (ec.map (fun kv => kv.2.Total)).sum

/-- `func (ec ErrorCounts) TotalAccepted(df DatabaseFlavor, errors Set) uint64`
(the `df` parameter is unused in the Go body). -/
def ErrorCounts.TotalAccepted (ec : ErrorCounts) (df : DatabaseFlavor) (errors : GoSet) : ℕ :=
  ((ec.filter (fun kv => errors.Contains kv.1)).map (fun kv => kv.2.Total)).sum

/-- `func (ec ErrorCounts) UnhandledErrors(df DatabaseFlavor, errors Set) ErrorCounts`:
the subset of entries whose code is not accepted. -/
def ErrorCounts.UnhandledErrors (ec : ErrorCounts) (df : DatabaseFlavor) (errors : GoSet) : ErrorCounts :=
  ec.filter (fun kv => !(errors.Contains kv.1))

/-- `func (ec ErrorCounts) Add(err error, query string, df DatabaseFlavor) error`:
extract the code via the flavor; on meta-error return it with the map
untouched; otherwise insert `(code → {Error: err, queries: {}})` on
first sight and bump the count for `query`. The in-place Go map update
is modelled by returning the updated map alongside the returned error. -/
def ErrorCounts.Add (ec : ErrorCounts) (err : String) (query : String) (df : DatabaseFlavor) :
    Option String × ErrorCounts :=
  match df.ErrorCode err with
  | .error e => (some e, ec)
  | .ok code =>
      let ec1 := if (ec.lookup code).isSome then ec else ec ++ [(code, ⟨[], err⟩)]
      (none, ec1.map (fun kv =>
        if kv.1 = code then
          (kv.1, { kv.2 with errorsPerQuery := ErrorsPerQuery.Add kv.2.errorsPerQuery query })
        else kv))

/-- `JobResult` (job.go): the record emitted per invocation.
`time.Duration` (int64 nanoseconds) is modelled as `ℤ`. -/
structure JobResult where
  Name : String
  Start : ℤ
  Elapsed : ℤ
  Queries : ℕ
  RowsAffected : ℤ
  Errors : ErrorCounts

/-- The slice of `Config` (config.go) that the result processor reads. -/
structure Config where
  Flavor : DatabaseFlavor
  AcceptedErrors : GoSet

/-- `type jobStats struct` (process.go): per-job counters plus the
transactions and aborts (`Errors`) aggregators. -/
structure jobStats where
  Transactions : StreamingStats
  Errors : StreamingStats
  Queries : ℕ
  RowsAffected : ℤ
  TotalErrors : ℕ
  AcceptedErrors : ℕ
  Start : ℤ
  Stop : ℤ
deriving DecidableEq

/-- First statement of `jobStats.Update`:
`js.AcceptedErrors += jr.Errors.TotalAccepted(config.Flavor, config.AcceptedErrors)`. -/
def jobStats.addAccepted (js : jobStats) (config : Config) (jr : JobResult) : jobStats :=
  { js with
    AcceptedErrors := js.AcceptedErrors +
      ErrorCounts.TotalAccepted jr.Errors config.Flavor config.AcceptedErrors }

/-- The error branch of `jobStats.Update`: on any error, count the
errors and add `Elapsed` to the aborts aggregator only; otherwise count
the rows and add `Elapsed` to the transactions aggregator. -/
def jobStats.recordElapsed (js : jobStats) (jr : JobResult) : jobStats :=
  if 0 < ErrorCounts.TotalErrors jr.Errors then
    { js with
      TotalErrors := js.TotalErrors + ErrorCounts.TotalErrors jr.Errors
      Errors := js.Errors.Add (jr.Elapsed : ℚ) }
  else
    { js with
      RowsAffected := js.RowsAffected + jr.RowsAffected
      Transactions := js.Transactions.Add (jr.Elapsed : ℚ) }

/-- `js.Queries += uint64(jr.Queries)`. -/
def jobStats.addQueries (js : jobStats) (jr : JobResult) : jobStats :=
  { js with Queries := js.Queries + jr.Queries }

/-- The trailing statements of `jobStats.Update`: widen `[Start, Stop]`
to cover `[jr.Start, jr.Start + jr.Elapsed]`. -/
def jobStats.widenWindow (js : jobStats) (jr : JobResult) : jobStats :=
  let js4 := if js.Start = 0 ∨ jr.Start < js.Start then { js with Start := jr.Start } else js
  if js4.Stop = 0 ∨ js4.Stop < jr.Start + jr.Elapsed then
    { js4 with Stop := jr.Start + jr.Elapsed }
  else js4

/-- `func (js *jobStats) Update(config *Config, jr *JobResult)`
(process.go), as the composition of its four statement groups in
source order. -/
def jobStats.Update (js : jobStats) (config : Config) (jr : JobResult) : jobStats :=
  jobStats.widenWindow (jobStats.addQueries (jobStats.recordElapsed (jobStats.addAccepted js config jr) jr) jr) jr

/-- A Go channel, abstracted to its creation parameter. -/
structure GoChan (α : Type) where
  capacity : ℕ

/-- The shape of the fan-in: the shared output channel plus one
forwarder goroutine per input channel. -/
structure FanIn (α : Type) where
  out : GoChan α
  forwarders : ℕ

/-- `func mergeJobResultChans(chans ...<-chan *JobResult) <-chan *JobResult`:
`outchan := make(chan *JobResult, 2*len(chans))`, one forwarder per
input pumping into it, and a coordinator that closes it after all
forwarders finish. -/
def mergeJobResultChans (chans : List (GoChan JobResult)) : FanIn JobResult :=
  { out := ⟨2 * chans.length⟩, forwarders := chans.length }

/-- `StreamingHistogram`: the fixed bucket array consumed by
`JobStats.Histogram()`. Only its callers and renderer appear in these
sources, so the bucket map itself is a plain function. -/
structure StreamingHistogram where
  Buckets : ℕ → ℕ

/-- Modelled from the spec: the `StreamingHistogram.add` body is not
among these sources (only its callers and the renderer are); the spec
says it "maps v (in base time units, integer) to bucket index =
position of highest set bit + 1 (v=0→bucket 0)". -/
def bucketIndex (v : ℕ) : ℕ :=
  if v = 0 then 0 else Nat.log2 v + 1

/-- Modelled from the spec: `add(v)` increments the bucket at
`bucketIndex v`. -/
def StreamingHistogram.Add (h : StreamingHistogram) (v : ℕ) : StreamingHistogram :=
  ⟨fun i => if i = bucketIndex v then h.Buckets i + 1 else h.Buckets i⟩

/-- The lower bound printed for bucket `bi` by `JobStats.Histogram()`:
`0` for bucket 0, else `1 << (bi-1)`. -/
def bucketBottom (bi : ℕ) : ℕ :=
  if bi = 0 then 0 else 2 ^ (bi - 1)

/-- The upper bound printed for bucket `bi` by `JobStats.Histogram()`:
`1 << bi`. -/
def bucketTop (bi : ℕ) : ℕ := 2 ^ bi

/-- `strings.SplitN(line, ",", 2)` specialised to the query-log parse:
split at the first comma; `none` when the line has no comma (Go returns
a single-element slice there). -/
def splitFirstComma : List Char → Option (List Char × List Char)
  | [] => none
  | c :: rest =>
    if c = ',' then some ([], rest)
    else
      match splitFirstComma rest with
      | none => none
      | some (a, b) => some (c :: a, b)

/-- Accumulate base-10 digits; `none` on a non-digit character. -/
def decDigitsAux : List Char → ℕ → Option ℕ
  | [], acc => some acc
  | c :: rest, acc =>
    if c.isDigit then decDigitsAux rest (acc * 10 + (c.toNat - 48))
    else none

/-- A non-empty all-digit string to its value. -/
def decDigits : List Char → Option ℕ
  | [] => none
  | c :: rest => decDigitsAux (c :: rest) 0

/-- `strconv.ParseInt(s, 10, 64)`: optional sign, non-empty digits,
and the value must fit in a signed 64-bit integer. -/
def parseInt64 (s : List Char) : Option ℤ :=
  match s with
  | '+' :: rest => (decDigits rest).bind (fun n => if n ≤ 2 ^ 63 - 1 then some (n : ℤ) else none)
  | '-' :: rest => (decDigits rest).bind (fun n => if n ≤ 2 ^ 63 then some (-(n : ℤ)) else none)
  | _ => (decDigits s).bind (fun n => if n ≤ 2 ^ 63 - 1 then some (n : ℤ) else none)

/-- One query-log line `<microseconds>,<query>`: timestamp before the
first comma, query text (which may itself contain commas) after it. -/
def parseLogLine (line : List Char) : Option (ℤ × List Char) :=
  match splitFirstComma line with
  | none => none
  | some (pre, post) => (parseInt64 pre).map (fun t => (t, post))

/-- Successive timestamp deltas against a running `lastTime`. -/
def deltaSchedule (lastTime : ℤ) : List (ℤ × List Char) → List (ℤ × List Char)
  | [] => []
  | (t, q) :: rest => (t - lastTime, q) :: deltaSchedule t rest

/-- The schedule the spec describes for parsed log lines: the first
line emits with no delay, each later line after sleeping its timestamp
delta against the previous line. -/
def expectedSchedule : List (ℤ × List Char) → List (ℤ × List Char)
  | [] => []
  | (t0, q0) :: rest => (0, q0) :: deltaSchedule t0 rest

/-- The scan loop of `Job.startLogQueryChannel` (job.go) as a pure
schedule: for each consumed line, the sleep before its emission and the
emitted query text. A malformed line (`log.Fatalf` in Go) is an error
result. `count` bounds the lines consumed (`0` = unlimited). -/
def logReplayAux (count : ℕ) : List (List Char) → ℕ → ℤ → Except String (List (ℤ × List Char))
  | [], _, _ => .ok []
  | line :: rest, linesScanned, lastTime =>
    if count ≠ 0 ∧ count ≤ linesScanned then .ok []
    else
      match splitFirstComma line with
      | none => .error ("invalid query log")
      | some (pre, post) =>
        match parseInt64 pre with
        | none => .error ("error parsing query log time")
        | some timeMicros =>
          let timeToSleep := if 0 < linesScanned then timeMicros - lastTime else 0
          match logReplayAux count rest (linesScanned + 1) timeMicros with
          | .error e => .error e
          | .ok out => .ok ((timeToSleep, post) :: out)

/-- The whole log-replay schedule, starting like the Go code with
`linesScanned = 0` and `lastTime = 0`. -/
def logReplay (count : ℕ) (lines : List (List Char)) : Except String (List (ℤ × List Char)) :=
  logReplayAux count lines 0 0

/-- An event of an invocation source: a send of one invocation on the
output channel, or the close of that channel, at an abstract instant. -/
inductive SourceEvent where
  | send (t : ℕ)
  | close (t : ℕ)
deriving DecidableEq

/-- The unbounded/counted branch of `Job.startQueryChannel` (job.go) as
a timed trace, one instant per loop iteration. Its `select` races the
send itself against `ctx.Done()`; the race is resolved in favour of
cancellation (the context is cancelled from instant `c` on), so a send
commits only at an instant strictly before `c`. Modelled for a
positive remaining count (a terminating loop) and no query args. -/
def unboundedFrom (c : ℕ) : ℕ → ℕ → List SourceEvent
  | 0, t => [.close t]
  | r + 1, t =>
    if c ≤ t then [.close t]
    else .send t :: unboundedFrom c r (t + 1)

def unboundedRun (count c : ℕ) : List SourceEvent := unboundedFrom c count 0

/-- `Job.startTickQueryChannel` (job.go): each iteration's `select`
races the ticker against `ctx.Done()` (resolved in favour of
cancellation); once the tick case is taken, the `batchSize` sends of
the batch happen unconditionally, one instant each, with no further
cancellation check. -/
def tickedFrom (batchSize c : ℕ) : ℕ → ℕ → List SourceEvent
  | 0, t => [.close t]
  | r + 1, t =>
    if c ≤ t then [.close t]
    else ((List.range batchSize).map (fun i => SourceEvent.send (t + 1 + i))) ++
      tickedFrom batchSize c r (t + batchSize + 1)

def tickedRun (count batchSize c : ℕ) : List SourceEvent := tickedFrom batchSize c count 0

/-- `Job.startLogQueryChannel` (job.go): per line, the `select` races a
timer for the line's sleep `d` against `ctx.Done()`; when the timer
fires first (strictly before instant `c`) the send happens
unconditionally one instant later, with no further cancellation
check. `ds` is the list of per-line sleeps. -/
def logFrom (c : ℕ) : List ℕ → ℕ → List SourceEvent
  | [], t => [.close t]
  | d :: rest, t =>
    if c ≤ t + d then [.close (min c (t + d))]
    else .send (t + d + 1) :: logFrom c rest (t + d + 1)

def logRun (ds : List ℕ) (c : ℕ) : List SourceEvent := logFrom c ds 0

/-- The instants at which a trace sends. -/
def sendTimes (tr : List SourceEvent) : List ℕ :=
  tr.filterMap (fun e => match e with | .send t => some t | .close _ => none)

/-- A trace made of sends followed by exactly one final close. -/
def isSourceTrace (tr : List SourceEvent) : Prop :=
  ∃ (ts : List ℕ) (tc : ℕ), tr = ts.map SourceEvent.send ++ [SourceEvent.close tc]

/-- The state of the `jobParser` and its `Job` right after
`jobOptions.Decode` has parsed a job section (config.go), before the
cross-field validation of `decodeJobSection`. File handles are reduced
to presence flags; the `rate` float is an exact rational (its parser
already rejected negative values). -/
structure jobParserState where
  Queries : List String
  QueryLog : Bool
  Rate : ℚ
  BatchSize : ℕ
  QueueDepth : ℕ
  Count : ℕ
  queryArgsFile : Bool
  queryArgsDelim : Bool
  multiQueryAllowed : Bool
deriving DecidableEq

/-- The job fields produced by a successful `decodeJobSection`. -/
structure JobDecoded where
  Queries : List String
  QueryLog : Bool
  Rate : ℚ
  BatchSize : ℕ
  QueueDepth : ℕ
  Count : ℕ
deriving DecidableEq

/-- `differentJobTypes` as counted by `decodeJobSection`: how many of
`QueueDepth > 0`, `QueryLog != nil`, `Rate > 0` are set. -/
def jobTypeCount (jp : jobParserState) : ℕ :=
  (if 0 < jp.QueueDepth then 1 else 0) + (if jp.QueryLog then 1 else 0) +
    (if 0 < jp.Rate then 1 else 0)

/-- `func decodeJobSection(...) error` (config.go) after the option
decode: the cross-field validation chain, the queue-depth default
(`job.QueueDepth = 1` when no mode is set — assigned in Go before the
exclusivity error, observable only on success), the exclusivity check,
and the batch-size default. -/
def decodeJobSection (jp : jobParserState) : Except String JobDecoded :=
  if jp.Queries.length = 0 ∧ jp.QueryLog = false then
    .error ("no query provided")
  else if 0 < jp.Queries.length ∧ jp.QueryLog then
    .error ("cannot have both queries and a query log")
  else if 1 < jp.Queries.length ∧ jp.multiQueryAllowed = false then
    .error ("must have only one query")
  else if jp.Rate = 0 ∧ 0 < jp.BatchSize then
    .error ("can only specify batch-size with rate")
  else if jp.queryArgsDelim ∧ jp.queryArgsFile = false then
    .error ("Cannot set query-args-delim with no query-args-file")
  else if jp.queryArgsFile ∧ jp.QueryLog then
    .error ("Cannot use query-args-file with query-log-file")
  else if 1 < jobTypeCount jp then
    .error ("Can only specify one of rate, queue-depth, or query-log-file")
  else
    .ok { Queries := jp.Queries
          QueryLog := jp.QueryLog
          Rate := jp.Rate
          BatchSize := if 0 < jp.Rate ∧ jp.BatchSize = 0 then 1 else jp.BatchSize
          QueueDepth := if jobTypeCount jp = 0 then 1 else jp.QueueDepth
          Count := jp.Count }

theorem StreamingStats.add_count (ss : StreamingStats) (x : ℚ) :
    (ss.Add x).count = ss.count + 1 := by
  unfold StreamingStats.Add
  split <;> rfl

theorem StreamingStats.add_eq_welfordStep (ss : StreamingStats) (x : ℚ) :
    ss.Add x = welfordStep ss x := by
  unfold StreamingStats.Add welfordStep
  split
  · rename_i h
    simp only [h]
    refine StreamingStats.mk.injEq _ _ _ _ _ _ |>.mpr ?_
    norm_num
  · refine StreamingStats.mk.injEq _ _ _ _ _ _ |>.mpr ?_
    push_cast
    norm_num

theorem StreamingStats.add_mean_mul (ss : StreamingStats) (x : ℚ) :
    (ss.Add x).mean * (((ss.Add x).count : ℕ) : ℚ) = ss.mean * (ss.count : ℚ) + x := by
  unfold StreamingStats.Add
  split
  · rename_i h
    simp [h]
  · rename_i h
    have hc : ((ss.count : ℚ) + 1) ≠ 0 := by positivity
    simp only
    push_cast
    field_simp
    ring

theorem StreamingStats.add_ssd_le (ss : StreamingStats) (x : ℚ) :
    ss.sumSquareDeviation ≤ (ss.Add x).sumSquareDeviation := by
  unfold StreamingStats.Add
  split
  · simp
  · rename_i h
    have h1 : (1 : ℚ) ≤ (ss.count : ℚ) := by
      exact_mod_cast Nat.one_le_iff_ne_zero.mpr h
    have hc : (0 : ℚ) < (ss.count : ℚ) + 1 := by linarith
    have key : (x - ss.mean) * (x - (ss.mean + (x - ss.mean) / ((ss.count : ℚ) + 1)))
        = (x - ss.mean) ^ 2 * (ss.count : ℚ) / ((ss.count : ℚ) + 1) := by
      field_simp
      ring
    simp only
    rw [key]
    have hnn : 0 ≤ (x - ss.mean) ^ 2 * (ss.count : ℚ) / ((ss.count : ℚ) + 1) := by
      apply div_nonneg
      · have : (0:ℚ) ≤ (ss.count : ℚ) := by positivity
        positivity
      · linarith
    linarith

theorem StreamingStats.foldl_count (xs : List ℚ) :
    ∀ ss : StreamingStats, (List.foldl StreamingStats.Add ss xs).count = ss.count + xs.length := by
  induction xs with
  | nil => intro ss; simp
  | cons x xs ih =>
    intro ss
    simp only [List.foldl_cons, List.length_cons, ih, StreamingStats.add_count]
    omega

theorem StreamingStats.foldl_mean_mul (xs : List ℚ) :
    ∀ ss : StreamingStats,
      (List.foldl StreamingStats.Add ss xs).mean * (((List.foldl StreamingStats.Add ss xs).count : ℕ) : ℚ)
        = ss.mean * (ss.count : ℚ) + xs.sum := by
  induction xs with
  | nil => intro ss; simp
  | cons x xs ih =>
    intro ss
    simp only [List.foldl_cons, List.sum_cons, ih, StreamingStats.add_mean_mul]
    ring

theorem StreamingStats.foldl_ssd_nonneg (xs : List ℚ) :
    ∀ ss : StreamingStats,
      ss.sumSquareDeviation ≤ (List.foldl StreamingStats.Add ss xs).sumSquareDeviation := by
  induction xs with
  | nil => intro ss; simp
  | cons x xs ih =>
    intro ss
    calc ss.sumSquareDeviation ≤ (ss.Add x).sumSquareDeviation := StreamingStats.add_ssd_le ss x
      _ ≤ _ := ih (ss.Add x)

theorem StreamingStats.fromList_count (xs : List ℚ) :
    (StreamingStats.fromList xs).count = xs.length := by
  unfold StreamingStats.fromList
  rw [StreamingStats.foldl_count]
  simp [StreamingStats.init]

theorem StreamingStats.fromList_mean (xs : List ℚ) :
    (StreamingStats.fromList xs).mean = xs.sum / (xs.length : ℚ) := by
  rcases xs with _ | ⟨x, xs⟩
  · simp [StreamingStats.fromList, StreamingStats.init]
  · have hmul := StreamingStats.foldl_mean_mul (x :: xs) StreamingStats.init
    have hcount := StreamingStats.fromList_count (x :: xs)
    unfold StreamingStats.fromList at hcount ⊢
    rw [hcount] at hmul
    have hlen : (((x :: xs).length : ℕ) : ℚ) ≠ 0 :=
      Nat.cast_ne_zero.mpr (by simp)
    rw [eq_div_iff hlen]
    simpa [StreamingStats.init] using hmul

/-- C1: after adding `x1..xn` via `StreamingStats.Add`, `Count() = n`,
`Mean() = (x1+...+xn)/n`, `SampleVariance() = sumSquareDeviation/(n-1)`
when `n > 1` and `0` otherwise, `sumSquareDeviation` is non-negative
throughout, and `Add` computes exactly the Welford recurrence
`n' = n+1; M' = M + (x−M)/n'; S' = S + (x−M)(x−M')`. -/
theorem c1_streamingStats_welford (xs : List ℚ) (x : ℚ) :
    (StreamingStats.fromList xs).Count = xs.length ∧
    (StreamingStats.fromList xs).Mean = xs.sum / (xs.length : ℚ) ∧
    0 ≤ (StreamingStats.fromList xs).sumSquareDeviation ∧
    (StreamingStats.fromList xs).SampleVariance =
      (if 1 < xs.length then
        (StreamingStats.fromList xs).sumSquareDeviation / ((xs.length - 1 : ℕ) : ℚ)
      else 0) ∧
    (StreamingStats.fromList xs).Add x = welfordStep (StreamingStats.fromList xs) x := by
  refine ⟨StreamingStats.fromList_count xs, StreamingStats.fromList_mean xs, ?_, ?_, ?_⟩
  · have := StreamingStats.foldl_ssd_nonneg xs StreamingStats.init
    simpa [StreamingStats.fromList, StreamingStats.init] using this
  · unfold StreamingStats.SampleVariance
    rw [StreamingStats.fromList_count]
  · exact StreamingStats.add_eq_welfordStep _ _

/-- C8: `Confidence(alpha)` returns `0` when fewer than 30 values were
added, and otherwise `NormInverseCDF(1 - (1-alpha)/2) * SampleStdDev() /
sqrt(count)`. -/
theorem c8_confidence_formula (xs : List ℚ) (alpha : ℝ) :
    (StreamingStats.fromList xs).Confidence alpha =
      if xs.length < 30 then 0
      else NormInverseCDF (1 - (1 - alpha) / 2) * (StreamingStats.fromList xs).SampleStdDev
            / Real.sqrt (xs.length : ℝ) := by
  unfold StreamingStats.Confidence
  rw [StreamingStats.fromList_count]

/-- C2: for every `ErrorCounts` value and every accepted set,
`TotalErrors() = TotalAccepted(df, A) + UnhandledErrors(df, A).TotalErrors()`. -/
theorem c2_error_partition (ec : ErrorCounts) (df : DatabaseFlavor) (A : GoSet) :
    ErrorCounts.TotalErrors ec =
      ErrorCounts.TotalAccepted ec df A +
        ErrorCounts.TotalErrors (ErrorCounts.UnhandledErrors ec df A) := by
  induction ec with
  | nil => rfl
  | cons kv ec ih =>
    by_cases h : A.Contains kv.1
    · simp [ErrorCounts.TotalErrors, ErrorCounts.TotalAccepted, ErrorCounts.UnhandledErrors, h] at ih ⊢
      omega
    · simp [ErrorCounts.TotalErrors, ErrorCounts.TotalAccepted, ErrorCounts.UnhandledErrors, h] at ih ⊢
      omega

/-- C10: `ErrorCounts.Add` is atomic on failure: if the flavor's
`ErrorCode` returns a meta-error, `Add` returns that meta-error and the
map is completely unchanged. -/
theorem c10_add_atomic_on_failure (ec : ErrorCounts) (err query : String)
    (df : DatabaseFlavor) (e : String) (h : df.ErrorCode err = .error e) :
    ErrorCounts.Add ec err query df = (some e, ec) := by
  unfold ErrorCounts.Add
  rw [h]

theorem c10_add_atomic_on_failure_witness :
    ErrorCounts.Add [(("X"), ⟨[(("q"), 2)], ("boom")⟩)] ("err1") ("q") ⟨fun _ => .error ("no code")⟩
      = (some ("no code"), [(("X"), ⟨[(("q"), 2)], ("boom")⟩)]) :=
  c10_add_atomic_on_failure _ _ _ _ _ rfl

theorem jobStats.widenWindow_Transactions (js : jobStats) (jr : JobResult) :
    (jobStats.widenWindow js jr).Transactions = js.Transactions := by
  simp only [jobStats.widenWindow]
  split_ifs <;> rfl

theorem jobStats.widenWindow_Errors (js : jobStats) (jr : JobResult) :
    (jobStats.widenWindow js jr).Errors = js.Errors := by
  simp only [jobStats.widenWindow]
  split_ifs <;> rfl

theorem jobStats.widenWindow_Queries (js : jobStats) (jr : JobResult) :
    (jobStats.widenWindow js jr).Queries = js.Queries := by
  simp only [jobStats.widenWindow]
  split_ifs <;> rfl

theorem jobStats.widenWindow_RowsAffected (js : jobStats) (jr : JobResult) :
    (jobStats.widenWindow js jr).RowsAffected = js.RowsAffected := by
  simp only [jobStats.widenWindow]
  split_ifs <;> rfl

theorem jobStats.widenWindow_AcceptedErrors (js : jobStats) (jr : JobResult) :
    (jobStats.widenWindow js jr).AcceptedErrors = js.AcceptedErrors := by
  simp only [jobStats.widenWindow]
  split_ifs <;> rfl

theorem jobStats.recordElapsed_err (js : jobStats) (jr : JobResult)
    (h : 0 < ErrorCounts.TotalErrors jr.Errors) :
    jobStats.recordElapsed js jr =
      { js with
        TotalErrors := js.TotalErrors + ErrorCounts.TotalErrors jr.Errors
        Errors := js.Errors.Add (jr.Elapsed : ℚ) } := by
  unfold jobStats.recordElapsed
  rw [if_pos h]

theorem jobStats.recordElapsed_ok (js : jobStats) (jr : JobResult)
    (h : ErrorCounts.TotalErrors jr.Errors = 0) :
    jobStats.recordElapsed js jr =
      { js with
        RowsAffected := js.RowsAffected + jr.RowsAffected
        Transactions := js.Transactions.Add (jr.Elapsed : ℚ) } := by
  unfold jobStats.recordElapsed
  rw [if_neg (by omega)]

/-- C3: the per-job stats update. If the result carries errors, its
elapsed time goes only to the aborts aggregator and its rows are not
counted; otherwise rows are counted and elapsed goes to the
transactions aggregator; in both cases the query counter grows by the
result's query count and the accepted-error counter by `TotalAccepted`
over the configured accepted set. -/
theorem c3_jobStats_update (config : Config) (js : jobStats) (jr : JobResult) :
    (0 < ErrorCounts.TotalErrors jr.Errors →
      (js.Update config jr).Errors = js.Errors.Add (jr.Elapsed : ℚ) ∧
      (js.Update config jr).Transactions = js.Transactions ∧
      (js.Update config jr).RowsAffected = js.RowsAffected) ∧
    (ErrorCounts.TotalErrors jr.Errors = 0 →
      (js.Update config jr).RowsAffected = js.RowsAffected + jr.RowsAffected ∧
      (js.Update config jr).Transactions = js.Transactions.Add (jr.Elapsed : ℚ) ∧
      (js.Update config jr).Errors = js.Errors) ∧
    (js.Update config jr).Queries = js.Queries + jr.Queries ∧
    (js.Update config jr).AcceptedErrors =
      js.AcceptedErrors + ErrorCounts.TotalAccepted jr.Errors config.Flavor config.AcceptedErrors := by
  refine ⟨fun h => ?_, fun h => ?_, ?_, ?_⟩
  · simp only [jobStats.Update, jobStats.widenWindow_Errors, jobStats.widenWindow_Transactions,
      jobStats.widenWindow_RowsAffected, jobStats.recordElapsed_err _ _ h, jobStats.addQueries,
      jobStats.addAccepted]
    simp
  · simp only [jobStats.Update, jobStats.widenWindow_Errors, jobStats.widenWindow_Transactions,
      jobStats.widenWindow_RowsAffected, jobStats.recordElapsed_ok _ _ h, jobStats.addQueries,
      jobStats.addAccepted]
    simp
  · rcases Nat.eq_zero_or_pos (ErrorCounts.TotalErrors jr.Errors) with h | h
    · simp only [jobStats.Update, jobStats.widenWindow_Queries,
        jobStats.recordElapsed_ok _ _ h, jobStats.addQueries, jobStats.addAccepted]
    · simp only [jobStats.Update, jobStats.widenWindow_Queries,
        jobStats.recordElapsed_err _ _ h, jobStats.addQueries, jobStats.addAccepted]
  · rcases Nat.eq_zero_or_pos (ErrorCounts.TotalErrors jr.Errors) with h | h
    · simp only [jobStats.Update, jobStats.widenWindow_AcceptedErrors,
        jobStats.recordElapsed_ok _ _ h, jobStats.addQueries, jobStats.addAccepted]
    · simp only [jobStats.Update, jobStats.widenWindow_AcceptedErrors,
        jobStats.recordElapsed_err _ _ h, jobStats.addQueries, jobStats.addAccepted]

theorem c3_jobStats_update_witness :
    (0 < ErrorCounts.TotalErrors [(("X"), ⟨[(("q"), 1)], ("boom")⟩)] ∧
      ((jobStats.mk ⟨0, 0, 0⟩ ⟨0, 0, 0⟩ 0 0 0 0 0 0).Update
          ⟨⟨fun _ => .ok ("X")⟩, ⟨[("X")]⟩⟩
          ⟨("j"), 0, 5, 2, 7, [(("X"), ⟨[(("q"), 1)], ("boom")⟩)]⟩).Transactions
        = (⟨0, 0, 0⟩ : StreamingStats)) ∧
    (ErrorCounts.TotalErrors ([] : ErrorCounts) = 0 ∧
      ((jobStats.mk ⟨0, 0, 0⟩ ⟨0, 0, 0⟩ 0 0 0 0 0 0).Update
          ⟨⟨fun _ => .ok ("X")⟩, ⟨[("X")]⟩⟩
          ⟨("j"), 0, 5, 2, 7, []⟩).RowsAffected = 0 + 7) :=
  ⟨⟨by decide,
    ((c3_jobStats_update ⟨⟨fun _ => .ok ("X")⟩, ⟨[("X")]⟩⟩
        (jobStats.mk ⟨0, 0, 0⟩ ⟨0, 0, 0⟩ 0 0 0 0 0 0)
        ⟨("j"), 0, 5, 2, 7, [(("X"), ⟨[(("q"), 1)], ("boom")⟩)]⟩).1 (by decide)).2.1⟩,
   ⟨by decide,
    ((c3_jobStats_update ⟨⟨fun _ => .ok ("X")⟩, ⟨[("X")]⟩⟩
        (jobStats.mk ⟨0, 0, 0⟩ ⟨0, 0, 0⟩ 0 0 0 0 0 0)
        ⟨("j"), 0, 5, 2, 7, []⟩).2.1 (by decide)).1⟩⟩

/-- C4: the merged results channel built by the fan-in over the per-job
result streams is created with buffer capacity `2 ×` the number of
input channels, with one forwarder per input. -/
theorem c4_merge_capacity (chans : List (GoChan JobResult)) :
    (mergeJobResultChans chans).out.capacity = 2 * chans.length ∧
    (mergeJobResultChans chans).forwarders = chans.length :=
  ⟨rfl, rfl⟩

theorem log2_eq_of_bounds (n k : ℕ) (h1 : 2 ^ k ≤ n) (h2 : n < 2 ^ (k + 1)) :
    Nat.log2 n = k := by
  rw [Nat.log2_eq_log_two]
  exact Nat.log_eq_of_pow_le_of_lt_pow h1 h2

/-- C6 fails as stated: `add(4)` increments bucket 3 (highest set bit
position + 1), not bucket `⌈log₂(max(4,1))⌉ = 2`, which stays empty. -/
theorem c6_histogram_counterexample :
    (StreamingHistogram.Add ⟨fun _ => 0⟩ 4).Buckets 3 = 1 ∧
    Nat.clog 2 (max 4 1) = 2 ∧
    (StreamingHistogram.Add ⟨fun _ => 0⟩ 4).Buckets (Nat.clog 2 (max 4 1)) = 0 := by
  have hlog : Nat.log2 4 = 2 := log2_eq_of_bounds 4 2 (by norm_num) (by norm_num)
  have hmax : max 4 1 = 4 := by norm_num
  have hclog : Nat.clog 2 (max 4 1) = 2 := by
    rw [hmax]
    have h1 : Nat.clog 2 4 ≤ 2 := (Nat.le_pow_iff_clog_le (by norm_num)).mp (by norm_num)
    have h2 : 1 < Nat.clog 2 4 := (Nat.pow_lt_iff_lt_clog (by norm_num)).mp (by norm_num)
    omega
  refine ⟨?_, hclog, ?_⟩
  · simp [StreamingHistogram.Add, bucketIndex, hlog]
  · rw [hclog]
    simp [StreamingHistogram.Add, bucketIndex, hlog]

/-- C6 amended: `add(v)` increments exactly the bucket at index
"position of highest set bit + 1" (`log2 v + 1` for `v > 0`, `0` for
`v = 0`), leaving every other bucket unchanged, and the rendered range
of bucket `i` is `(2^(i-1), 2^i]` (lower bound `0` for bucket 0). -/
theorem c6_histogram_amended (h : StreamingHistogram) (v i : ℕ) :
    (h.Add v).Buckets (bucketIndex v) = h.Buckets (bucketIndex v) + 1 ∧
    (i ≠ bucketIndex v → (h.Add v).Buckets i = h.Buckets i) ∧
    (v ≠ 0 → bucketIndex v = Nat.log2 v + 1) ∧
    bucketIndex 0 = 0 ∧
    (i ≠ 0 → bucketBottom i = 2 ^ (i - 1)) ∧
    bucketBottom 0 = 0 ∧
    bucketTop i = 2 ^ i := by
  refine ⟨?_, fun hi => ?_, fun hv => ?_, rfl, fun hi => ?_, rfl, rfl⟩
  · simp [StreamingHistogram.Add]
  · simp [StreamingHistogram.Add, hi]
  · simp [bucketIndex, hv]
  · simp [bucketBottom, hi]

theorem c6_histogram_amended_witness :
    (0 : ℕ) ≠ bucketIndex 5 ∧
    ((StreamingHistogram.mk fun _ => 2).Add 5).Buckets 0 = 2 ∧
    bucketIndex 5 = Nat.log2 5 + 1 ∧
    bucketBottom 3 = 2 ^ 2 := by
  have hlog : Nat.log2 5 = 2 := log2_eq_of_bounds 5 2 (by norm_num) (by norm_num)
  have hb : bucketIndex 5 = 3 := by simp [bucketIndex, hlog]
  exact ⟨by omega, (c6_histogram_amended ⟨fun _ => 2⟩ 5 0).2.1 (by omega),
    (c6_histogram_amended ⟨fun _ => 2⟩ 5 0).2.2.1 (by norm_num),
    (c6_histogram_amended ⟨fun _ => 2⟩ 5 3).2.2.2.2.1 (by norm_num)⟩

theorem splitFirstComma_append (pre post : List Char) (h : ',' ∉ pre) :
    splitFirstComma (pre ++ ',' :: post) = some (pre, post) := by
  induction pre with
  | nil => simp [splitFirstComma]
  | cons c cs ih =>
    have hc : ¬(c = ',') := fun hh => h (hh ▸ List.mem_cons_self c cs)
    have hcs : ',' ∉ cs := fun hm => h (List.mem_cons_of_mem c hm)
    simp [splitFirstComma, hc, ih hcs]

theorem parseLogLine_inv (l : List Char) (t : ℤ) (q : List Char)
    (h : parseLogLine l = some (t, q)) :
    ∃ pre, splitFirstComma l = some (pre, q) ∧ parseInt64 pre = some t := by
  unfold parseLogLine at h
  rcases hsp : splitFirstComma l with _ | ⟨pre, post⟩
  · rw [hsp] at h
    simp at h
  · rw [hsp] at h
    simp only [Option.map_eq_some'] at h
    rcases h with ⟨t', hpi, heq⟩
    rcases Prod.mk.injEq .. |>.mp heq with ⟨ht, hq⟩
    subst ht hq
    exact ⟨pre, rfl, hpi⟩

theorem logReplayAux_wellformed (lines : List (List Char)) :
    ∀ (k : ℕ) (last : ℤ), 0 < k → (∀ l ∈ lines, (parseLogLine l).isSome) →
      logReplayAux 0 lines k last = .ok (deltaSchedule last (lines.filterMap parseLogLine)) := by
  induction lines with
  | nil => intro k last _ _; rfl
  | cons l rest ih =>
    intro k last hk h
    have hl : (parseLogLine l).isSome := h l (List.mem_cons_self l rest)
    rcases Option.isSome_iff_exists.mp hl with ⟨⟨t, q⟩, hsome⟩
    have hrest : ∀ x ∈ rest, (parseLogLine x).isSome :=
      fun x hx => h x (List.mem_cons_of_mem l hx)
    rcases parseLogLine_inv l t q hsome with ⟨pre, hsp, hpi⟩
    unfold logReplayAux
    rw [hsp]
    simp [hpi, ih (k + 1) t (by omega) hrest, List.filterMap_cons, hsome, deltaSchedule, hk]

theorem logReplayAux_malformed (lines : List (List Char)) :
    ∀ (k : ℕ) (last : ℤ), (∃ l ∈ lines, (parseLogLine l).isNone) →
      ∃ e, logReplayAux 0 lines k last = .error e := by
  induction lines with
  | nil => intro k last h; simp at h
  | cons l rest ih =>
    intro k last h
    unfold logReplayAux
    rcases hsp : splitFirstComma l with _ | ⟨pre, post⟩
    · exact ⟨("invalid query log"), by simp⟩
    · rcases hpi : parseInt64 pre with _ | t
      · refine ⟨("error parsing query log time"), ?_⟩
        simp [hpi]
      · have hlsome : parseLogLine l = some (t, post) := by
          unfold parseLogLine
          rw [hsp]
          simp [hpi]
        have hrest : ∃ x ∈ rest, (parseLogLine x).isNone := by
          rcases h with ⟨x, hx, hxn⟩
          rcases List.mem_cons.mp hx with hx | hx
          · subst hx
            rw [Option.isNone_iff_eq_none, hlsome] at hxn
            simp at hxn
          · exact ⟨x, hx, hxn⟩
        rcases ih (k + 1) t hrest with ⟨e, he⟩
        refine ⟨e, ?_⟩
        simp [hpi, he]

/-- C7: each log line is split at the first comma only (so the query
may contain commas); the first line's invocation is emitted with no
delay and every later line sleeps its timestamp delta against the
previous line; a line with no comma or with a timestamp that does not
parse as an integer is fatal. -/
theorem c7_log_replay :
    (∀ pre post : List Char, ',' ∉ pre →
      splitFirstComma (pre ++ ',' :: post) = some (pre, post)) ∧
    (∀ lines : List (List Char), (∀ l ∈ lines, (parseLogLine l).isSome) →
      logReplay 0 lines = .ok (expectedSchedule (lines.filterMap parseLogLine))) ∧
    (∀ lines : List (List Char), (∃ l ∈ lines, (parseLogLine l).isNone) →
      ∃ e, logReplay 0 lines = .error e) := by
  refine ⟨splitFirstComma_append, fun lines h => ?_, fun lines h => logReplayAux_malformed lines 0 0 h⟩
  rcases lines with _ | ⟨l, rest⟩
  · rfl
  · have hl : (parseLogLine l).isSome := h l (List.mem_cons_self l rest)
    rcases Option.isSome_iff_exists.mp hl with ⟨⟨t, q⟩, hsome⟩
    have hrest : ∀ x ∈ rest, (parseLogLine x).isSome :=
      fun x hx => h x (List.mem_cons_of_mem l hx)
    rcases parseLogLine_inv l t q hsome with ⟨pre, hsp, hpi⟩
    unfold logReplay logReplayAux
    rw [hsp]
    simp [hpi, logReplayAux_wellformed rest 1 t (by omega) hrest, List.filterMap_cons, hsome,
      expectedSchedule]

theorem c7_log_replay_witness :
    (',' ∉ ("123").toList ∧
      splitFirstComma (("123").toList ++ ',' :: ("a,b").toList)
        = some (("123").toList, ("a,b").toList)) ∧
    ((∀ l ∈ [("0,select 1").toList, ("2000,select 2,x").toList], (parseLogLine l).isSome) ∧
      logReplay 0 [("0,select 1").toList, ("2000,select 2,x").toList]
        = .ok (expectedSchedule
            ([("0,select 1").toList, ("2000,select 2,x").toList].filterMap parseLogLine))) ∧
    ∃ e, logReplay 0 [("nocomma").toList] = .error e :=
  ⟨⟨by decide, c7_log_replay.1 _ _ (by decide)⟩,
   ⟨by decide, c7_log_replay.2.1 _ (by decide)⟩,
   c7_log_replay.2.2 _ ⟨("nocomma").toList, by decide, by decide⟩⟩

theorem isSourceTrace_cons_send (t : ℕ) (tr : List SourceEvent) (h : isSourceTrace tr) :
    isSourceTrace (.send t :: tr) := by
  rcases h with ⟨ts, tc, rfl⟩
  exact ⟨t :: ts, tc, by simp⟩

theorem isSourceTrace_append_sends (us : List ℕ) (tr : List SourceEvent) (h : isSourceTrace tr) :
    isSourceTrace (us.map SourceEvent.send ++ tr) := by
  rcases h with ⟨ts, tc, rfl⟩
  exact ⟨us ++ ts, tc, by simp⟩

theorem sendTimes_cons_send (t : ℕ) (tr : List SourceEvent) :
    sendTimes (.send t :: tr) = t :: sendTimes tr := rfl

theorem sendTimes_close (t : ℕ) : sendTimes [.close t] = [] := rfl

theorem sendTimes_append_sends (us : List ℕ) (tr : List SourceEvent) :
    sendTimes (us.map SourceEvent.send ++ tr) = us ++ sendTimes tr := by
  induction us with
  | nil => rfl
  | cons u us ih => simp [sendTimes_cons_send] at ih ⊢; exact ih

theorem unboundedFrom_spec (c : ℕ) : ∀ (r t : ℕ),
    isSourceTrace (unboundedFrom c r t) ∧
    ∀ u ∈ sendTimes (unboundedFrom c r t), t ≤ u ∧ u < c := by
  intro r
  induction r with
  | zero => exact fun t => ⟨⟨[], t, rfl⟩, by simp [unboundedFrom, sendTimes]⟩
  | succ r ih =>
    intro t
    unfold unboundedFrom
    by_cases hc : c ≤ t
    · simp only [if_pos hc]
      exact ⟨⟨[], t, rfl⟩, by simp [sendTimes_close]⟩
    · simp only [if_neg hc]
      refine ⟨isSourceTrace_cons_send _ _ (ih (t + 1)).1, ?_⟩
      intro u hu
      rw [sendTimes_cons_send] at hu
      rcases List.mem_cons.mp hu with rfl | hu
      · omega
      · have := (ih (t + 1)).2 u hu
        omega

theorem tickedFrom_spec (b c : ℕ) : ∀ (r t : ℕ),
    isSourceTrace (tickedFrom b c r t) ∧
    ∀ u ∈ sendTimes (tickedFrom b c r t), ∃ s, s < c ∧ t ≤ s ∧ s < u ∧ u ≤ s + b := by
  intro r
  induction r with
  | zero => exact fun t => ⟨⟨[], t, rfl⟩, by simp [tickedFrom, sendTimes]⟩
  | succ r ih =>
    intro t
    unfold tickedFrom
    by_cases hc : c ≤ t
    · simp only [if_pos hc]
      exact ⟨⟨[], t, rfl⟩, by simp [sendTimes_close]⟩
    · simp only [if_neg hc]
      have hmap : (List.range b).map (fun i => SourceEvent.send (t + 1 + i))
          = ((List.range b).map (fun i => t + 1 + i)).map SourceEvent.send := by
        simp [List.map_map]
      refine ⟨by rw [hmap]; exact isSourceTrace_append_sends _ _ (ih (t + b + 1)).1, ?_⟩
      intro u hu
      rw [hmap, sendTimes_append_sends] at hu
      rcases List.mem_append.mp hu with hu | hu
      · rcases List.mem_map.mp hu with ⟨i, hi, rfl⟩
        have : i < b := List.mem_range.mp hi
        exact ⟨t, by omega, by omega, by omega, by omega⟩
      · rcases (ih (t + b + 1)).2 u hu with ⟨s, hs1, hs2, hs3, hs4⟩
        exact ⟨s, hs1, by omega, hs3, hs4⟩

theorem logFrom_spec (c : ℕ) : ∀ (ds : List ℕ) (t : ℕ),
    isSourceTrace (logFrom c ds t) ∧
    ∀ u ∈ sendTimes (logFrom c ds t), u ≤ c := by
  intro ds
  induction ds with
  | nil => exact fun t => ⟨⟨[], t, rfl⟩, by simp [logFrom, sendTimes]⟩
  | cons d rest ih =>
    intro t
    unfold logFrom
    by_cases hc : c ≤ t + d
    · simp only [if_pos hc]
      exact ⟨⟨[], min c (t + d), rfl⟩, by simp [sendTimes_close]⟩
    · simp only [if_neg hc]
      refine ⟨isSourceTrace_cons_send _ _ (ih (t + d + 1)).1, ?_⟩
      intro u hu
      rw [sendTimes_cons_send] at hu
      rcases List.mem_cons.mp hu with rfl | hu
      · omega
      · exact (ih (t + d + 1)).2 u hu

/-- C5 fails as stated: in ticked mode with `count = 1`, `batchSize = 2`
and cancellation at instant 1, the tick commits at instant 0 and both
batch sends then happen at instants 1 and 2 — at and after
cancellation. -/
theorem c5_source_counterexample :
    tickedRun 1 2 1 = [.send 1, .send 2, .close 3] ∧
    ∃ u ∈ sendTimes (tickedRun 1 2 1), 1 ≤ u := by
  constructor
  · rfl
  · exact ⟨1, by decide, by omega⟩

/-- C5 amended: the unbounded/counted source races each send itself
against cancellation, so no send commits once the context is cancelled,
while the ticked source races only the tick wait (the `batchSize` sends
of a batch committed before cancellation still happen, up to
`batchSize` instants later) and the log-replay source races only the
sleep (the send after an expired sleep still happens one instant
later); in all three modes the source always closes its output channel
at the end of its trace. -/
theorem c5_cancellation_amended :
    (∀ count c, isSourceTrace (unboundedRun count c) ∧
      ∀ u ∈ sendTimes (unboundedRun count c), u < c) ∧
    (∀ count batchSize c, isSourceTrace (tickedRun count batchSize c) ∧
      ∀ u ∈ sendTimes (tickedRun count batchSize c),
        ∃ s, s < c ∧ s < u ∧ u ≤ s + batchSize) ∧
    (∀ ds c, isSourceTrace (logRun ds c) ∧
      ∀ u ∈ sendTimes (logRun ds c), u ≤ c) := by
  refine ⟨fun count c => ⟨(unboundedFrom_spec c count 0).1, fun u hu => ?_⟩,
    fun count batchSize c => ⟨(tickedFrom_spec batchSize c count 0).1, fun u hu => ?_⟩,
    fun ds c => ⟨(logFrom_spec c ds 0).1, fun u hu => (logFrom_spec c ds 0).2 u hu⟩⟩
  · exact ((unboundedFrom_spec c count 0).2 u hu).2
  · rcases (tickedFrom_spec batchSize c count 0).2 u hu with ⟨s, hs1, _, hs3, hs4⟩
    exact ⟨s, hs1, hs3, hs4⟩

theorem c5_cancellation_amended_witness :
    (1 : ℕ) ∈ sendTimes (tickedRun 1 1 5) ∧ ∃ s, s < 5 ∧ s < 1 ∧ 1 ≤ s + 1 :=
  ⟨by decide, (c5_cancellation_amended.2.1 1 1 5).2 1 (by decide)⟩

/-- C9: decoding a job section succeeds only when at most one of
`queue-depth > 0`, `rate > 0` and `query-log-file` is set (it returns
an error whenever more than one is set), and when none of the three is
set the decoded job defaults to `QueueDepth = 1`. -/
theorem c9_job_mode_exclusivity (jp : jobParserState) :
    (2 ≤ jobTypeCount jp → ∃ e, decodeJobSection jp = .error e) ∧
    (∀ j, decodeJobSection jp = .ok j →
      jobTypeCount jp ≤ 1 ∧ (jobTypeCount jp = 0 → j.QueueDepth = 1)) := by
  constructor
  · intro h
    unfold decodeJobSection
    split_ifs <;> first | exact ⟨_, rfl⟩ | omega
  · intro j hj
    unfold decodeJobSection at hj
    split_ifs at hj
    all_goals
      rw [Except.ok.injEq] at hj
      subst hj
      refine ⟨by omega, fun h0 => ?_⟩
      simp_all

theorem c9_job_mode_exclusivity_witness :
    (2 ≤ jobTypeCount ⟨[("q")], false, 1, 0, 1, 0, false, false, false⟩ ∧
      ∃ e, decodeJobSection ⟨[("q")], false, 1, 0, 1, 0, false, false, false⟩ = .error e) ∧
    (decodeJobSection ⟨[("q")], false, 0, 0, 0, 0, false, false, false⟩
        = .ok ⟨[("q")], false, 0, 0, 1, 0⟩ ∧
      jobTypeCount ⟨[("q")], false, 0, 0, 0, 0, false, false, false⟩ ≤ 1 ∧
      (jobTypeCount ⟨[("q")], false, 0, 0, 0, 0, false, false, false⟩ = 0 →
        (⟨[("q")], false, 0, 0, 1, 0⟩ : JobDecoded).QueueDepth = 1)) :=
  ⟨⟨by decide, (c9_job_mode_exclusivity _).1 (by decide)⟩,
   ⟨by rfl, (c9_job_mode_exclusivity _).2 _ (by rfl)⟩⟩

end DbBench
